import Mathlib

/-!
# Verification of the goethe-b1-wortliste processing core

Shallow embedding of the pixel-row break-detection algorithm
(`src/processors/break-detector.js`), the raw-record merge
(`src/processors/data-processor.js`), the per-column cached pipeline
(`processors/page-processor.js`, `PageProcessor.processColumn`), the
page-level aggregation loops of `src/index.js`, and the worker pool of
`src/runtime/worker-pool.js`, together with theorems about them.

Pixel buffers are modelled as total functions `Nat → Nat` giving the byte at
every offset (a Node `Buffer` read in bounds); machine integers that appear
(`y`, offsets, thresholds) are small non-negative indices, so plain `Nat`
is exact.
-/

set_option autoImplicit false

namespace GoetheB1

/-! ## Configuration (`src/config.js`) -/

/-- Constant `CONFIG.BREAK_THRESHOLD` from `src/config.js`. -/
def BREAK_THRESHOLD : Nat := 42

/-- Function `padPageNumber` from `src/utils/fs.js`: `num.toString().padStart(3, '0')`. -/
def padPageNumber (num : Nat) : String :=
  let s := toString num
  if s.length < 3 then String.mk (List.replicate (3 - s.length) '0') ++ s else s

/-- Table `BREAK_OVERRIDES` from `src/config.js`: keys are `page-column` strings,
values the sets of forced break row coordinates (JS `Set` modelled as a
list of its elements). -/
def BREAK_OVERRIDES : List (String × List Nat) :=
  [ ("022-l", [118]),
    ("026-l", [348]),
    ("028-l", [304, 395, 528, 665, 1032, 1175, 1307, 1720, 1954, 2086, 2229, 2407, 2545, 2870]),
    ("032-l", [530]),
    ("033-l", [713]),
    ("035-l", [711, 991]),
    ("037-r", [1083]),
    ("040-l", [117]),
    ("041-l", [988]),
    ("042-l", [2728]),
    ("046-r", [711]),
    ("048-r", [2776]),
    ("050-l", [442]),
    ("054-l", [2274]),
    ("057-l", [2500]),
    ("058-l", [1676]),
    ("063-r", [1630]),
    ("064-r", [1218]),
    ("065-r", [1360]),
    ("067-l", [2502]),
    ("069-r", [1310]),
    ("075-l", [1037, 1079]),
    ("077-l", [576]),
    ("080-l", [530]),
    ("081-l", [1636]),
    ("082-l", [346]),
    ("086-r", [71]),
    ("087-r", [1080]),
    ("089-l", [2272]),
    ("089-r", [162]),
    ("090-l", [486, 574, 715]),
    ("090-r", [211]),
    ("093-l", [2640]) ]

/-- Lookup `BREAK_OVERRIDES[prefix] || new Set()`: the override set for a
`page-column` key, defaulting to the empty set. -/
def overridesFor (pageKey : String) : List Nat :=
  ((BREAK_OVERRIDES.find? fun kv => kv.1 == pageKey).map fun kv => kv.2).getD []

/-! ## BreakDetector (`src/processors/break-detector.js`) -/

/-- The local `whiteThreshold` constant of `BreakDetector.isRowEmpty`. -/
def whiteThreshold : Nat := 240

/-- Method `BreakDetector.isRowEmpty(pixelBuffer, rowIdx, width, channels)`:
walks the pixels of row `rowIdx` and returns `false` as soon as one of the
first three channel bytes of a pixel is below `whiteThreshold`, `true`
otherwise.  `List.all` short-circuits exactly like the early `return`. -/
def isRowEmpty (pixelBuffer : Nat → Nat) (rowIdx width channels : Nat) : Bool :=
  let rowStartOffset := rowIdx * width * channels
  (List.range width).all fun x =>
    let pixelOffset := rowStartOffset + x * channels
    let r := pixelBuffer pixelOffset
    let g := pixelBuffer (pixelOffset + 1)
    let b := pixelBuffer (pixelOffset + 2)
    if r < whiteThreshold ∨ g < whiteThreshold ∨ b < whiteThreshold then false else true

/-- The four states of the `detectBreaks` finite state machine. -/
inductive DetectState where
  | trail
  | look
  | found
  | overridden
deriving DecidableEq

/-- The mutable locals of the `detectBreaks` loop: `state`, `start`,
`rectStart`, `ranges`.  JS initialises `start` to `null`; it is never read
before being assigned, so it is carried as a `Nat` initialised to `0`. -/
structure DetectAcc where
  state : DetectState
  start : Nat
  rectStart : Nat
  ranges : List (Nat × Nat)
deriving DecidableEq

/-- Loop entry values: `state = 'trail'`, `start = null`, `rectStart = 0`,
`ranges = []`. -/
def detectInit : DetectAcc := ⟨DetectState.trail, 0, 0, []⟩

/-- The `switch (state)` of the `detectBreaks` loop body, after the
override check has (possibly) rewritten the state: `trail` waits for
content, `look` waits for an empty row, `found`/`overridden` share the
closing branch whose condition is
`y > start + this.threshold || state === 'overridden'`. -/
def detectSwitch (threshold : Nat) (rowIsEmpty : Bool) (y : Nat) (acc : DetectAcc) : DetectAcc :=
  match acc.state with
  | DetectState.trail =>
      if rowIsEmpty then acc else { acc with state := DetectState.look }
  | DetectState.look =>
      if rowIsEmpty then { acc with state := DetectState.found, start := y } else acc
  | DetectState.found | DetectState.overridden =>
      if rowIsEmpty then
        if acc.start + threshold < y ∨ acc.state = DetectState.overridden then
          { acc with
              ranges := acc.ranges ++ [(acc.rectStart, y)]
              rectStart := y
              state := DetectState.trail }
        else acc
      else { acc with state := DetectState.look }

/-- One iteration of the `for (y = 0; y < height; y++)` body of
`BreakDetector.detectBreaks`: first the override check (which overwrites
`state` with `'overridden'` and resets `start` to `0`), then the `switch`
on the state. -/
def detectStep (threshold : Nat) (ov rowEmptyAt : Nat → Bool)
    (acc : DetectAcc) (y : Nat) : DetectAcc :=
  detectSwitch threshold (rowEmptyAt y) y
    (if ov y then { acc with state := DetectState.overridden, start := 0 } else acc)

/-- The whole row loop of `detectBreaks`, rows `0, …, height-1` in order. -/
def detectLoop (threshold : Nat) (ov rowEmptyAt : Nat → Bool) (height : Nat) : DetectAcc :=
  (List.range height).foldl (detectStep threshold ov rowEmptyAt) detectInit

/-- Function `detectBreaks` with the row-emptiness test and the override set
abstracted: the loop followed by the trailing flush
`if (state !== 'trail') ranges.push([rectStart, y])` where `y = height`
after the loop. -/
def detectBreaksAbs (threshold : Nat) (ov rowEmptyAt : Nat → Bool) (height : Nat) :
    List (Nat × Nat) :=
  if (detectLoop threshold ov rowEmptyAt height).state ≠ DetectState.trail then
    (detectLoop threshold ov rowEmptyAt height).ranges ++
      [((detectLoop threshold ov rowEmptyAt height).rectStart, height)]
  else
    (detectLoop threshold ov rowEmptyAt height).ranges

/-- Method `BreakDetector.detectBreaks(pixelBuffer, info, …)` over an explicit
override set: rows are tested with `isRowEmpty`, membership with `Set.has`.
`threshold` is the constructor's `this.threshold`
(`CONFIG.BREAK_THRESHOLD` in production, overridden in tests). -/
def detectBreaks (pixelBuffer : Nat → Nat) (width height channels : Nat)
    (overrides : List Nat) (threshold : Nat) : List (Nat × Nat) :=
  detectBreaksAbs threshold (fun y => overrides.contains y)
    (fun y => isRowEmpty pixelBuffer y width channels) height

/-- Method `BreakDetector.detectBreaks(pixelBuffer, info, pageNum, column)`:
the override set is looked up under the `padded-page ++ "-" ++ column`
key, as in the source. -/
def detectBreaksPage (pixelBuffer : Nat → Nat) (width height channels : Nat)
    (pageNum : Nat) (column : String) (threshold : Nat) : List (Nat × Nat) :=
  let pageKey := padPageNumber pageNum ++ "-" ++ column
  detectBreaks pixelBuffer width height channels (overridesFor pageKey) threshold

/-! ## DataProcessor (`src/processors/data-processor.js`) -/

/-- A `{definition, example}` record as consumed and produced by
`DataProcessor.processRawData` (the raw extracted shape and the merged
vocabulary-entry shape coincide in the source). -/
structure VocabEntry where
  definition : String
  «example» : String
deriving DecidableEq

/-- One iteration of the `for (const item of inputData)` loop of
`DataProcessor.processRawData`: an item with empty `definition` merges into
the last buffer entry (`prevItem.example = prevItem.example + '\n' + example`)
when the buffer is non-empty, otherwise the item is pushed. -/
def processRawStep (buf : List VocabEntry) (item : VocabEntry) : List VocabEntry :=
  if h : item.definition = "" ∧ buf ≠ [] then
    buf.dropLast ++
      [{ definition := (buf.getLast h.2).definition
         «example» := (buf.getLast h.2).«example» ++ "\n" ++ item.«example» }]
  else
    buf ++ [item]

/-- Method `DataProcessor.processRawData(inputData, buf)`: fold the merge step over
the input records, returning the updated buffer. -/
def processRawData (inputData : List VocabEntry) (buf : List VocabEntry) : List VocabEntry :=
  inputData.foldl processRawStep buf

/-! ## Page-job aggregation (`src/index.js`)

Two aggregation strategies appear in the repository.

`GoetheBrListProcessor.processAll` at `src/src/index.js:219-245` merges each
page's persisted left and right records into the shared `allRawData` buffer
*inside* the concurrent job callback, immediately after that page's
`processPage` resolves — so the buffer grows in job-completion order.

The variant at `src/unnamed/part_012:84-100` runs the concurrent phase
first (each job only persists its per-page artifacts, keyed by page) and
then aggregates sequentially over `pageNumbers` in ascending page order,
left column before right column. -/

/-- Merging one page's persisted `(left, right)` artifact pair into the
buffer: left column first, then right, through `processRawData`. -/
def mergePageArtifact (buf : List VocabEntry) (d : List VocabEntry × List VocabEntry) :
    List VocabEntry :=
  processRawData d.2 (processRawData d.1 buf)

/-- Merge the persisted artifacts of one page into the buffer: left column
first, then right column, both through `processRawData`. -/
def aggregatePageStep (leftData rightData : Nat → List VocabEntry)
    (buf : List VocabEntry) (p : Nat) : List VocabEntry :=
  processRawData (rightData p) (processRawData (leftData p) buf)

/-- Method `processAll` of `src/src/index.js:219-245`: with all per-page artifacts
already persisted, the shared `allRawData` buffer receives each page's
records at the moment that page's job completes, i.e. the buffer is the
fold of `aggregatePageStep` over the jobs' completion order. -/
def processAllCompletionOrderAggregate (leftData rightData : Nat → List VocabEntry)
    (completionOrder : List Nat) : List VocabEntry :=
  completionOrder.foldl (aggregatePageStep leftData rightData) []

/-- Range `CONFIG.PAGE_START .. CONFIG.PAGE_END` as the ascending list
`pageNumbers` built by both `processAll` variants. -/
def pageNumbersList (pageStart pageEnd : Nat) : List Nat :=
  List.range' pageStart (pageEnd + 1 - pageStart)

/-- One completed job of phase 1 of the `src/unnamed/part_012`
`processAll`: the job for page `p` persists the (fixed, per-page) artifact
`artifact p` under key `p` and touches no other key. -/
def persistJobStep (artifact : Nat → List VocabEntry × List VocabEntry)
    (store : Nat → Option (List VocabEntry × List VocabEntry)) (p : Nat) :
    Nat → Option (List VocabEntry × List VocabEntry) :=
  fun q => if q = p then some (artifact p) else store q

/-- Phase 1 of the `src/unnamed/part_012` `processAll`: the concurrent jobs
persist their artifacts into the per-page keyed store in completion
order. -/
def runJobsPersist (artifact : Nat → List VocabEntry × List VocabEntry)
    (completionOrder : List Nat) : Nat → Option (List VocabEntry × List VocabEntry) :=
  completionOrder.foldl (persistJobStep artifact) (fun _ => none)

/-- The full two-phase `processAll` of `src/unnamed/part_012:76-100`:
concurrent persistence (in completion order), then a strictly sequential
aggregation walking `pageNumbers` ascending, skipping pages whose artifacts
are missing (`fileExists` guard) and merging left before right. -/
def processAllTwoPhase (artifact : Nat → List VocabEntry × List VocabEntry)
    (pageStart pageEnd : Nat) (completionOrder : List Nat) : List VocabEntry :=
  let store := runJobsPersist artifact completionOrder
  (pageNumbersList pageStart pageEnd).foldl
    (fun buf p =>
      match store p with
      | some d => mergePageArtifact buf d
      | none => buf)
    []

/-- One wrapped page job of `src/src/index.js:221-241`: `outcome p` is what
the job body for page `p` does — either it raises (`Except.error` with the
logged message) or it yields the page's persisted left and right records.
A raised exception is caught by the job's `try { … } catch`: it is recorded
(page number and message, as `console.error('Error processing page …')`
reports) and nothing else happens; a successful job merges its records into
the shared buffer. -/
def runPageJobStep (outcome : Nat → Except String (List VocabEntry × List VocabEntry))
    (acc : List (Nat × String) × List VocabEntry) (p : Nat) :
    List (Nat × String) × List VocabEntry :=
  match outcome p with
  | Except.error e => (acc.1 ++ [(p, e)], acc.2)
  | Except.ok d => (acc.1, mergePageArtifact acc.2 d)

/-- The whole concurrent run of `src/src/index.js:219-241`, observed as the
sequence of job-boundary completions: each job settles in turn (in
completion order) and is handled by `runPageJobStep`. -/
def runPageJobs (outcome : Nat → Except String (List VocabEntry × List VocabEntry))
    (completionOrder : List Nat) : List (Nat × String) × List VocabEntry :=
  completionOrder.foldl (runPageJobStep outcome) ([], [])

/-- The failed jobs of a run, with their logged messages, in run order. -/
def failuresOf (outcome : Nat → Except String (List VocabEntry × List VocabEntry))
    (completionOrder : List Nat) : List (Nat × String) :=
  completionOrder.filterMap fun p =>
    match outcome p with
    | Except.error e => some (p, e)
    | Except.ok _ => none

/-- The successful jobs' artifacts of a run, in run order. -/
def successesOf (outcome : Nat → Except String (List VocabEntry × List VocabEntry))
    (completionOrder : List Nat) : List (List VocabEntry × List VocabEntry) :=
  completionOrder.filterMap fun p =>
    match outcome p with
    | Except.error _ => none
    | Except.ok d => some d

/-! ## PageProcessor.processColumn (`src/unnamed/part_005:83-149`) -/

/-- The two per-(page, column) artifact files: `NNN-c.json` (extracted
records) and `NNN-c.txt` (break ranges), each `none` when absent; contents
are carried in parsed form since `processColumn` round-trips them through
`JSON.parse` / line splitting. -/
structure ColumnStore (α : Type) where
  dataFile : Option (List α)
  rangesFile : Option (List (Nat × Nat))
deriving DecidableEq

/-- What one `processColumn` call produces: the store after the call, the
returned `{data, ranges}`, and whether break detection respectively text
extraction actually ran. -/
structure ColumnOutcome (α : Type) where
  store : ColumnStore α
  data : List α
  ranges : List (Nat × Nat)
  ranDetection : Bool
  ranExtraction : Bool
deriving DecidableEq

/-- Method `PageProcessor.processColumn`: if the data file exists, return its
records together with the ranges file's ranges (empty when that file is
absent) — no detection, no extraction, no writes.  Otherwise reuse or
detect the ranges (persisting freshly detected ones), extract text for
them, persist the records, and return both.  `detect` stands for
`breakDetector.detectBreaks` on the column's pixels and `extract` for
`textExtractor.extractFromRanges`. -/
def processColumn {α : Type} (store : ColumnStore α)
    (detect : Unit → List (Nat × Nat)) (extract : List (Nat × Nat) → List α) :
    ColumnOutcome α :=
  match store.dataFile with
  | some data =>
      { store := store
        data := data
        ranges := store.rangesFile.getD []
        ranDetection := false
        ranExtraction := false }
  | none =>
      match store.rangesFile with
      | some rs =>
          { store := { store with dataFile := some (extract rs) }
            data := extract rs
            ranges := rs
            ranDetection := false
            ranExtraction := true }
      | none =>
          let rs := detect ()
          { store := { dataFile := some (extract rs), rangesFile := some rs }
            data := extract rs
            ranges := rs
            ranDetection := true
            ranExtraction := true }

/-! ## WorkerPool (`src/src/runtime/worker-pool.js:64-91`) -/

/-- The events that can settle a posted job: the worker posts a reply, the
worker emits an error, or the 30 s `AbortSignal.timeout` fires first. -/
inductive WorkerEvent (V : Type) where
  | message (v : V)
  | errored (msg : String)
  | timedOut

/-- How the `exec` promise ends up: `resolved`/`rejected` through the
executor's callbacks, or `handlerThrew` when the event handler itself
throws before reaching them (in which case the promise never settles). -/
inductive ExecOutcome (V : Type) where
  | resolved (v : V)
  | rejected (msg : String)
  | handlerThrew (msg : String)
deriving DecidableEq

/-- The pool's mutable fields that `exec` touches: which `_workers` slots
still hold a live (non-terminated) worker thread, and `_nextIndex`. -/
structure PoolState where
  workersAlive : List Bool
  nextIndex : Nat
deriving DecidableEq

/-- Modelled from the platform, not from the repository: the interface of
the `AbortSignal` instance returned by `AbortSignal.timeout` (WHATWG DOM /
Node 22).  It exposes these members — and no `clear` member, so
`abort.clear()` in the source throws a `TypeError`. -/
def abortSignalMembers : List String :=
  ["aborted", "reason", "onabort", "throwIfAborted",
   "addEventListener", "removeEventListener", "dispatchEvent"]

/-- A JS method call `abort.name()` on the timeout signal: ok when the
member exists, otherwise the `TypeError` that property lookup raises. -/
def callAbortSignalMember (name : String) : Except String Unit :=
  if abortSignalMembers.contains name then Except.ok ()
  else Except.error ("abort." ++ name ++ " is not a function")

/-- Method `WorkerPool.exec` (src/src/runtime/worker-pool.js:64-91) for one job,
from submission to the first event: the worker at `_nextIndex` is chosen
and `_nextIndex` advances round-robin; then
* on `message`, `onMessage` first calls `abort.clear()` and only then would
  `resolve(normalized.reviver(msg))`;
* on `error`, `onError` likewise calls `abort.clear()` before `reject(err)`;
* on the 30 s timeout, the abort listener terminates the chosen worker
  (leaving its slot dead — nothing respawns a replacement) and rejects with
  `Worker timed out after 30 s`. -/
def execHandle {V : Type} (reviver : V → V) (pool : PoolState) (ev : WorkerEvent V) :
    PoolState × ExecOutcome V :=
  let idx := pool.nextIndex
  let pool1 : PoolState :=
    { pool with nextIndex := (pool.nextIndex + 1) % pool.workersAlive.length }
  match ev with
  | WorkerEvent.message v =>
      match callAbortSignalMember "clear" with
      | Except.error e => (pool1, ExecOutcome.handlerThrew e)
      | Except.ok _ => (pool1, ExecOutcome.resolved (reviver v))
  | WorkerEvent.errored e =>
      match callAbortSignalMember "clear" with
      | Except.error e1 => (pool1, ExecOutcome.handlerThrew e1)
      | Except.ok _ => (pool1, ExecOutcome.rejected e)
  | WorkerEvent.timedOut =>
      ({ pool1 with workersAlive := pool1.workersAlive.set idx false },
        ExecOutcome.rejected "Worker timed out after 30 s")

/-! ## Concrete fixtures (from `test/break-detector.test.js`) -/

/-- The unit-test buffer: a 2×3 RGB image whose rows are all-white,
all-black, all-white (`Buffer.from([...white, ...white, ...black,
...black, ...white, ...white])`). -/
def testBuffer3Rows : Nat → Nat :=
  fun i => if i < 6 then 255 else if i < 12 then 0 else 255

/-- A 1×3 RGB image whose rows are black, black, white: content on the
first two rows, an empty row last. -/
def contentRowsBuffer : Nat → Nat :=
  fun i => if i < 6 then 0 else 255

/-! ## Specification predicates -/

/-- Predicate `chainFrom lo rs hi`: the ranges `rs` tile the interval from `lo` to
`hi` contiguously — each range starts where the previous one ended, every
range is non-empty, the first starts at `lo` and the last ends at `hi`
(`lo = hi` when `rs` is empty). -/
def chainFrom : Nat → List (Nat × Nat) → Nat → Prop
  | lo, [], hi => lo = hi
  | lo, r :: rest, hi => r.1 = lo ∧ lo < r.2 ∧ chainFrom r.2 rest hi

/-- Invariant of the `detectBreaks` loop before processing row `y`:
the emitted ranges tile `[0, rectStart)` contiguously, `rectStart` is `0`
or lies strictly below `y` (pushes happen at earlier rows), and any
non-`trail` state means at least one row has been processed. -/
def DetInv (acc : DetectAcc) (y : Nat) : Prop :=
  chainFrom 0 acc.ranges acc.rectStart ∧
  (acc.rectStart = 0 ∨ acc.rectStart < y) ∧
  (acc.state ≠ DetectState.trail → 0 < y)

/-! ## BreakDetector lemmas -/

/-- A switch step either leaves `ranges` and `rectStart` untouched, or
pushes exactly `[rectStart, y)` and moves `rectStart` to `y`; pushing is
impossible from the `trail` state. -/
theorem detectSwitch_spec (threshold : Nat) (e : Bool) (y : Nat) (acc : DetectAcc) :
    ((detectSwitch threshold e y acc).ranges = acc.ranges ∧
      (detectSwitch threshold e y acc).rectStart = acc.rectStart) ∨
    ((detectSwitch threshold e y acc).ranges = acc.ranges ++ [(acc.rectStart, y)] ∧
      (detectSwitch threshold e y acc).rectStart = y ∧
      acc.state ≠ DetectState.trail) := by
  obtain ⟨st, s, r, rs⟩ := acc
  cases st <;> cases e <;> simp [detectSwitch]
  by_cases hc : s + threshold < y
  · right
    simp [hc]
  · left
    simp [hc]

/-- In the `overridden` state an empty row always closes the current
block, whatever the threshold. -/
theorem detectSwitch_overridden_empty (threshold y : Nat) (acc : DetectAcc)
    (h : acc.state = DetectState.overridden) :
    detectSwitch threshold true y acc =
      { acc with
          ranges := acc.ranges ++ [(acc.rectStart, y)]
          rectStart := y
          state := DetectState.trail } := by
  obtain ⟨st, s, r, rs⟩ := acc
  subst h
  simp [detectSwitch]

/-- In the `overridden` state a non-empty row moves the machine to `look`
and leaves everything else unchanged. -/
theorem detectSwitch_overridden_content (threshold y : Nat) (acc : DetectAcc)
    (h : acc.state = DetectState.overridden) :
    detectSwitch threshold false y acc = { acc with state := DetectState.look } := by
  obtain ⟨st, s, r, rs⟩ := acc
  subst h
  simp [detectSwitch]

/-- A full loop step at an overridden, empty row closes the current block
at exactly that row, independently of the threshold and of the incoming
state. -/
theorem detectStep_override_empty (threshold : Nat) (ov re : Nat → Bool)
    (acc : DetectAcc) (y : Nat) (hov : ov y = true) (hre : re y = true) :
    detectStep threshold ov re acc y =
      { state := DetectState.trail
        start := 0
        rectStart := y
        ranges := acc.ranges ++ [(acc.rectStart, y)] } := by
  unfold detectStep
  rw [hov, hre, if_pos rfl]
  rw [detectSwitch_overridden_empty threshold y _ rfl]

/-- Every range already emitted survives the rest of the loop. -/
theorem foldl_detectStep_mem (threshold : Nat) (ov re : Nat → Bool) :
    ∀ (rows : List Nat) (acc : DetectAcc) (r : Nat × Nat),
      r ∈ acc.ranges → r ∈ (rows.foldl (detectStep threshold ov re) acc).ranges := by
  intro rows
  induction rows with
  | nil => intro acc r h; simpa using h
  | cons p rest ih =>
      intro acc r h
      rw [List.foldl_cons]
      refine ih _ r ?_
      unfold detectStep
      rcases detectSwitch_spec threshold (re p) p
          (if ov p then { acc with state := DetectState.overridden, start := 0 } else acc) with
        ⟨hr, _⟩ | ⟨hr, _, _⟩ <;>
      · rw [hr]
        split <;> simp [h]

/-- Every range emitted during the loop is in the final output of
`detectBreaksAbs` (the trailing flush only appends). -/
theorem mem_detectBreaksAbs_of_mem_loop (threshold : Nat) (ov re : Nat → Bool)
    (height : Nat) (r : Nat × Nat)
    (h : r ∈ (detectLoop threshold ov re height).ranges) :
    r ∈ detectBreaksAbs threshold ov re height := by
  unfold detectBreaksAbs
  split
  · exact List.mem_append_left _ h
  · exact h

/-- Core of the override-closure property: if some processed row is
overridden and empty, a range ending exactly at that row is emitted. -/
theorem detect_override_emits (threshold : Nat) (ov re : Nat → Bool) :
    ∀ (rows : List Nat) (acc : DetectAcc) (y : Nat),
      y ∈ rows → ov y = true → re y = true →
      ∃ a, (a, y) ∈ (rows.foldl (detectStep threshold ov re) acc).ranges := by
  intro rows
  induction rows with
  | nil => intro acc y h; simp at h
  | cons p rest ih =>
      intro acc y hmem hov hre
      rw [List.foldl_cons]
      rcases List.mem_cons.mp hmem with h | h
      · subst h
        refine ⟨acc.rectStart, foldl_detectStep_mem threshold ov re rest _ _ ?_⟩
        rw [detectStep_override_empty threshold ov re acc y hov hre]
        simp
      · exact ih _ y h hov hre

/-- Appending `[hi, b)` to a chain ending at `hi` yields a chain ending at
`b`, provided the new range is non-empty. -/
theorem chainFrom_snoc : ∀ (rs : List (Nat × Nat)) (lo hi b : Nat),
    chainFrom lo rs hi → hi < b → chainFrom lo (rs ++ [(hi, b)]) b := by
  intro rs
  induction rs with
  | nil =>
      intro lo hi b h hb
      simp only [chainFrom] at h
      subst h
      exact ⟨rfl, hb, rfl⟩
  | cons r rest ih =>
      intro lo hi b h hb
      obtain ⟨h1, h2, h3⟩ := h
      exact ⟨h1, h2, ih r.2 hi b h3 hb⟩

/-- A chain is a list of non-empty, contiguous (hence non-overlapping,
strictly increasing) ranges. -/
theorem chainFrom_wf : ∀ (rs : List (Nat × Nat)) (lo hi : Nat),
    chainFrom lo rs hi →
    (∀ r ∈ rs, r.1 < r.2) ∧ List.Chain' (fun a b => a.2 ≤ b.1) rs := by
  intro rs
  induction rs with
  | nil => intro lo hi _; exact ⟨by simp, List.chain'_nil⟩
  | cons r rest ih =>
      intro lo hi h
      obtain ⟨h1, h2, h3⟩ := h
      obtain ⟨ihm, ihc⟩ := ih r.2 hi h3
      refine ⟨?_, ?_⟩
      · intro x hx
        rcases List.mem_cons.mp hx with hx | hx
        · subst hx
          rw [h1]
          exact h2
        · exact ihm x hx
      · cases rest with
        | nil => simp
        | cons r2 rest2 =>
            rw [List.chain'_cons]
            obtain ⟨h4, _, _⟩ := h3
            exact ⟨le_of_eq h4.symm, ihc⟩

/-- The loop invariant `DetInv` is preserved by one loop step, provided
row `0` is never overridden. -/
theorem detInv_step (threshold : Nat) (ov re : Nat → Bool) (hov0 : ov 0 = false)
    (acc : DetectAcc) (y : Nat) (h : DetInv acc y) :
    DetInv (detectStep threshold ov re acc y) (y + 1) := by
  obtain ⟨hch, hrs, hst⟩ := h
  unfold detectStep
  by_cases hov : ov y = true
  · rw [hov, if_pos rfl]
    have hy : 0 < y := by
      rcases Nat.eq_zero_or_pos y with h0 | h0
      · subst h0
        rw [hov0] at hov
        cases hov
      · exact h0
    rcases detectSwitch_spec threshold (re y) y
        { acc with state := DetectState.overridden, start := 0 } with
      ⟨hr, hrect⟩ | ⟨hr, hrect, _⟩
    · refine ⟨?_, ?_, fun _ => Nat.succ_pos y⟩
      · rw [hr, hrect]
        exact hch
      · rw [hrect]
        rcases hrs with h0 | h0
        · exact Or.inl h0
        · exact Or.inr (Nat.lt_succ_of_lt h0)
    · have hlt : acc.rectStart < y := by
        rcases hrs with h0 | h0
        · rw [h0]
          exact hy
        · exact h0
      refine ⟨?_, Or.inr (by rw [hrect]; exact Nat.lt_succ_self y), fun _ => Nat.succ_pos y⟩
      rw [hr, hrect]
      exact chainFrom_snoc _ _ _ _ hch hlt
  · rw [Bool.not_eq_true] at hov
    rw [hov, if_neg (by simp)]
    rcases detectSwitch_spec threshold (re y) y acc with
      ⟨hr, hrect⟩ | ⟨hr, hrect, hnt⟩
    · refine ⟨?_, ?_, fun _ => Nat.succ_pos y⟩
      · rw [hr, hrect]
        exact hch
      · rw [hrect]
        rcases hrs with h0 | h0
        · exact Or.inl h0
        · exact Or.inr (Nat.lt_succ_of_lt h0)
    · have hy : 0 < y := hst hnt
      have hlt : acc.rectStart < y := by
        rcases hrs with h0 | h0
        · rw [h0]
          exact hy
        · exact h0
      refine ⟨?_, Or.inr (by rw [hrect]; exact Nat.lt_succ_self y), fun _ => Nat.succ_pos y⟩
      rw [hr, hrect]
      exact chainFrom_snoc _ _ _ _ hch hlt

/-- The invariant holds after the whole loop. -/
theorem detInv_loop (threshold : Nat) (ov re : Nat → Bool) (hov0 : ov 0 = false)
    (height : Nat) : DetInv (detectLoop threshold ov re height) height := by
  induction height with
  | zero => exact ⟨rfl, Or.inl rfl, fun hc => absurd rfl hc⟩
  | succ n ih =>
      rw [detectLoop, List.range_succ, List.foldl_append, List.foldl_cons, List.foldl_nil]
      exact detInv_step threshold ov re hov0 _ n ih

/-! ## Claim C1 -/

/-- C1 counterexample.  Buffer rows: black, black, white (1×3 RGB);
row `1` is in the override set, threshold `42`.  The next empty row at or
after the override row is row `2`, but no emitted range ends there — the
non-empty override row sends the machine back to `look`, after which the
ordinary threshold rule applies again, so the output is the single flushed
range `[0, 3)`.  This refutes the claim that an override at `y` closes the
current block at the very next empty row at or after `y`. -/
theorem override_no_closure_after_content_row :
    detectBreaks contentRowsBuffer 1 3 3 [1] 42 = [(0, 3)] ∧
    ¬ ∃ r ∈ detectBreaks contentRowsBuffer 1 3 3 [1] 42, r.2 = 2 := by
  constructor
  · decide
  · decide

/-- C1 (amended): (1) if a row `y` of the scanned image is in the override
set and is itself empty, `detectBreaks` emits a range ending exactly at
`y`, for every pixel buffer and *every* threshold (an empty run of length 1
suffices); (2) a non-empty row seen while the machine is in the
`OVERRIDDEN` state (in particular an overridden non-empty row) sends the
machine to `LOOK` and closes no block. -/
theorem override_forced_closure_and_look_revert :
    (∀ (buf : Nat → Nat) (width height channels : Nat)
        (overrides : List Nat) (threshold y : Nat),
      y < height → overrides.contains y = true →
      isRowEmpty buf y width channels = true →
      ∃ a, (a, y) ∈ detectBreaks buf width height channels overrides threshold) ∧
    (∀ (threshold : Nat) (ov re : Nat → Bool) (acc : DetectAcc) (y : Nat),
      acc.state = DetectState.overridden ∨ ov y = true → re y = false →
      (detectStep threshold ov re acc y).state = DetectState.look ∧
      (detectStep threshold ov re acc y).ranges = acc.ranges) := by
  constructor
  · intro buf width height channels overrides threshold y hy hov hre
    obtain ⟨a, ha⟩ := detect_override_emits threshold
      (fun z => overrides.contains z) (fun z => isRowEmpty buf z width channels)
      (List.range height) detectInit y (List.mem_range.mpr hy) hov hre
    exact ⟨a, mem_detectBreaksAbs_of_mem_loop _ _ _ height (a, y) ha⟩
  · intro threshold ov re acc y hd hre
    unfold detectStep
    by_cases hov : ov y = true
    · rw [hov, if_pos rfl, hre]
      rw [detectSwitch_overridden_content threshold y _ rfl]
      exact ⟨rfl, rfl⟩
    · rw [Bool.not_eq_true] at hov
      rw [hov, if_neg (by simp), hre]
      have hacc : acc.state = DetectState.overridden := by
        rcases hd with h | h
        · exact h
        · rw [hov] at h
          cases h
      rw [detectSwitch_overridden_content threshold y acc hacc]
      exact ⟨rfl, rfl⟩

/-- C1 witness: part (1) at an all-white 1×2 RGB buffer with row 1
overridden and the production threshold 42; part (2) at a concrete
`overridden` accumulator and a non-empty row. -/
theorem override_forced_closure_and_look_revert_inst :
    (∃ a, (a, 1) ∈ detectBreaks (fun _ => 255) 1 2 3 [1] 42) ∧
    ((detectStep 42 (fun _ => false) (fun _ => false)
        ⟨DetectState.overridden, 0, 0, []⟩ 5).state = DetectState.look ∧
      (detectStep 42 (fun _ => false) (fun _ => false)
        ⟨DetectState.overridden, 0, 0, []⟩ 5).ranges = []) :=
  ⟨override_forced_closure_and_look_revert.1 (fun _ => 255) 1 2 3 [1] 42 1
      (by decide) (by decide) (by decide),
    override_forced_closure_and_look_revert.2 42 (fun _ => false) (fun _ => false)
      ⟨DetectState.overridden, 0, 0, []⟩ 5 (Or.inl rfl) rfl⟩

/-! ## Claim C2 -/

/-- C2: the unit-test 2×3 white/black/white buffer with threshold 0 and no
overrides (page 1, left column) yields the single range `[0, 3)`; and in
general, whenever the loop ends in a state other than `trail`, the final
flushed range `[rectStart, height)` is appended to the loop's output. -/
theorem three_row_buffer_single_range_and_final_flush :
    (detectBreaksPage testBuffer3Rows 2 3 3 1 "l" 0 = [(0, 3)]) ∧
    (∀ (threshold : Nat) (ov re : Nat → Bool) (height : Nat),
      (detectLoop threshold ov re height).state ≠ DetectState.trail →
      detectBreaksAbs threshold ov re height =
        (detectLoop threshold ov re height).ranges ++
          [((detectLoop threshold ov re height).rectStart, height)]) := by
  constructor
  · decide
  · intro threshold ov re height h
    unfold detectBreaksAbs
    rw [if_pos h]

/-- C2 witness: the end-of-buffer flush applied to the test buffer itself,
whose loop ends in the `found` state. -/
theorem three_row_buffer_single_range_and_final_flush_inst :
    (detectLoop 0 (fun y => ([] : List Nat).contains y)
        (fun y => isRowEmpty testBuffer3Rows y 2 3) 3).state ≠ DetectState.trail ∧
    detectBreaksAbs 0 (fun y => ([] : List Nat).contains y)
        (fun y => isRowEmpty testBuffer3Rows y 2 3) 3 =
      (detectLoop 0 (fun y => ([] : List Nat).contains y)
          (fun y => isRowEmpty testBuffer3Rows y 2 3) 3).ranges ++
        [((detectLoop 0 (fun y => ([] : List Nat).contains y)
            (fun y => isRowEmpty testBuffer3Rows y 2 3) 3).rectStart, 3)] :=
  ⟨by decide,
    three_row_buffer_single_range_and_final_flush.2 0 (fun y => ([] : List Nat).contains y)
      (fun y => isRowEmpty testBuffer3Rows y 2 3) 3 (by decide)⟩

/-! ## Claim C5 -/

/-- C5 counterexample: a single all-white row whose index 0 is in the
override set produces the empty range `[0, 0)`, violating
`start < end`. -/
theorem detect_ranges_empty_range_on_zero_override :
    detectBreaks (fun _ => 255) 1 1 3 [0] 42 = [(0, 0)] ∧
    ¬ (∀ r ∈ detectBreaks (fun _ => 255) 1 1 3 [0] 42, r.1 < r.2) := by
  constructor
  · decide
  · decide

/-- C5 (amended): provided row index 0 is not in the override set (as
holds for every override set of the repository's `BREAK_OVERRIDES`, whose
smallest entry is 71), every range returned by `detectBreaks` is a
non-empty half-open interval, and consecutive ranges are non-overlapping
(each range starts at or after the previous range's end, hence they are
strictly increasing). -/
theorem detect_ranges_wellformed :
    ∀ (buf : Nat → Nat) (width height channels : Nat)
      (overrides : List Nat) (threshold : Nat),
      overrides.contains 0 = false →
      (∀ r ∈ detectBreaks buf width height channels overrides threshold, r.1 < r.2) ∧
      List.Chain' (fun a b => a.2 ≤ b.1)
        (detectBreaks buf width height channels overrides threshold) := by
  intro buf width height channels overrides threshold h0
  obtain ⟨hch, hrs, hnt⟩ := detInv_loop threshold (fun y => overrides.contains y)
    (fun y => isRowEmpty buf y width channels) h0 height
  unfold detectBreaks detectBreaksAbs
  split
  · next hs =>
      have hlt : (detectLoop threshold (fun y => overrides.contains y)
          (fun y => isRowEmpty buf y width channels) height).rectStart < height := by
        rcases hrs with h | h
        · rw [h]
          exact hnt hs
        · exact h
      exact chainFrom_wf _ _ _ (chainFrom_snoc _ _ _ _ hch hlt)
  · exact chainFrom_wf _ _ _ hch

/-- C5 witness: the test buffer with an empty override set satisfies the
well-formedness properties. -/
theorem detect_ranges_wellformed_inst :
    (([] : List Nat).contains 0 = false) ∧
    (∀ r ∈ detectBreaks testBuffer3Rows 2 3 3 [] 0, r.1 < r.2) ∧
    List.Chain' (fun a b => a.2 ≤ b.1) (detectBreaks testBuffer3Rows 2 3 3 [] 0) :=
  ⟨rfl, detect_ranges_wellformed testBuffer3Rows 2 3 3 [] 0 rfl⟩

/-! ## Claim C3 -/

/-- Row test `isRowEmpty` is true exactly when every pixel of the row has its first
three channel bytes at or above the whiteness cutoff. -/
theorem isRowEmpty_eq_true_iff (buf : Nat → Nat) (rowIdx width channels : Nat) :
    isRowEmpty buf rowIdx width channels = true ↔
      ∀ x < width,
        whiteThreshold ≤ buf (rowIdx * width * channels + x * channels) ∧
        whiteThreshold ≤ buf (rowIdx * width * channels + x * channels + 1) ∧
        whiteThreshold ≤ buf (rowIdx * width * channels + x * channels + 2) := by
  simp only [isRowEmpty, List.all_eq_true, List.mem_range]
  constructor
  · intro h x hx
    have hx2 := h x hx
    by_cases hc :
        buf (rowIdx * width * channels + x * channels) < whiteThreshold ∨
        buf (rowIdx * width * channels + x * channels + 1) < whiteThreshold ∨
        buf (rowIdx * width * channels + x * channels + 2) < whiteThreshold
    · rw [if_pos hc] at hx2
      cases hx2
    · push_neg at hc
      exact hc
  · intro h x hx
    obtain ⟨h1, h2, h3⟩ := h x hx
    have hc :
        ¬ (buf (rowIdx * width * channels + x * channels) < whiteThreshold ∨
          buf (rowIdx * width * channels + x * channels + 1) < whiteThreshold ∨
          buf (rowIdx * width * channels + x * channels + 2) < whiteThreshold) := by
      push_neg
      exact ⟨h1, h2, h3⟩
    rw [if_neg hc]

/-- Row test `isRowEmpty` only reads the first three channel bytes of each pixel of
the row: buffers that agree there agree on the result. -/
theorem isRowEmpty_congr (buf buf2 : Nat → Nat) (rowIdx width channels : Nat)
    (h : ∀ x < width, ∀ j < 3,
      buf (rowIdx * width * channels + x * channels + j) =
        buf2 (rowIdx * width * channels + x * channels + j)) :
    isRowEmpty buf rowIdx width channels = isRowEmpty buf2 rowIdx width channels := by
  have hiff : isRowEmpty buf rowIdx width channels = true ↔
      isRowEmpty buf2 rowIdx width channels = true := by
    rw [isRowEmpty_eq_true_iff, isRowEmpty_eq_true_iff]
    have h0 : ∀ x, x < width →
        buf (rowIdx * width * channels + x * channels) =
          buf2 (rowIdx * width * channels + x * channels) := by
      intro x hx
      have := h x hx 0 (by norm_num)
      simpa using this
    have h1 : ∀ x, x < width →
        buf (rowIdx * width * channels + x * channels + 1) =
          buf2 (rowIdx * width * channels + x * channels + 1) := by
      intro x hx
      exact h x hx 1 (by norm_num)
    have h2 : ∀ x, x < width →
        buf (rowIdx * width * channels + x * channels + 2) =
          buf2 (rowIdx * width * channels + x * channels + 2) := by
      intro x hx
      exact h x hx 2 (by norm_num)
    constructor
    · intro hA x hx
      obtain ⟨ha, hb, hcc⟩ := hA x hx
      exact ⟨h0 x hx ▸ ha, h1 x hx ▸ hb, h2 x hx ▸ hcc⟩
    · intro hA x hx
      obtain ⟨ha, hb, hcc⟩ := hA x hx
      exact ⟨(h0 x hx).symm ▸ ha, (h1 x hx).symm ▸ hb, (h2 x hx).symm ▸ hcc⟩
  cases hA : isRowEmpty buf rowIdx width channels <;>
    cases hB : isRowEmpty buf2 rowIdx width channels
  · rfl
  · have := hiff.mpr hB
    rw [hA] at this
    cases this
  · have := hiff.mp hA
    rw [hB] at this
    cases this
  · rfl

/-- C3: `isRowEmpty` returns true iff every pixel of the row has each of
its first three channel bytes at or above the whiteness cutoff (240), and
bytes outside those positions — in particular any channels beyond the
third — never affect the result. -/
theorem isRowEmpty_iff_first_three_channels_white :
    (∀ (buf : Nat → Nat) (rowIdx width channels : Nat),
      isRowEmpty buf rowIdx width channels = true ↔
        ∀ x < width,
          whiteThreshold ≤ buf (rowIdx * width * channels + x * channels) ∧
          whiteThreshold ≤ buf (rowIdx * width * channels + x * channels + 1) ∧
          whiteThreshold ≤ buf (rowIdx * width * channels + x * channels + 2)) ∧
    (∀ (buf buf2 : Nat → Nat) (rowIdx width channels : Nat),
      (∀ x < width, ∀ j < 3,
        buf (rowIdx * width * channels + x * channels + j) =
          buf2 (rowIdx * width * channels + x * channels + j)) →
      isRowEmpty buf rowIdx width channels = isRowEmpty buf2 rowIdx width channels) :=
  ⟨isRowEmpty_eq_true_iff, isRowEmpty_congr⟩

/-- C3 witness: an RGBA row whose fourth channel is 0 (far below the
cutoff) still counts as empty, because only the first three channels are
read. -/
theorem isRowEmpty_iff_first_three_channels_white_inst :
    isRowEmpty (fun _ => 255) 0 1 4 =
      isRowEmpty (fun i => if i < 3 then 255 else 0) 0 1 4 ∧
    isRowEmpty (fun i => if i < 3 then 255 else 0) 0 1 4 = true :=
  ⟨isRowEmpty_iff_first_three_channels_white.2 (fun _ => 255)
      (fun i => if i < 3 then 255 else 0) 0 1 4 (by decide),
    by decide⟩

/-! ## Claim C4 -/

/-- A continuation record (empty `definition`) merged into a non-empty
buffer rewrites only the last entry, newline-appending its example. -/
theorem processRawStep_merge (buf : List VocabEntry) (item : VocabEntry)
    (h : buf ≠ []) (hdef : item.definition = "") :
    processRawStep buf item =
      buf.dropLast ++
        [⟨(buf.getLast h).definition,
          (buf.getLast h).«example» ++ "\n" ++ item.«example»⟩] := by
  unfold processRawStep
  rw [dif_pos (show item.definition = "" ∧ buf ≠ [] from ⟨hdef, h⟩)]

/-- Merging a continuation record never grows the buffer. -/
theorem processRawStep_merge_length (buf : List VocabEntry) (item : VocabEntry)
    (h : buf ≠ []) (hdef : item.definition = "") :
    (processRawStep buf item).length = buf.length := by
  rw [processRawStep_merge buf item h hdef]
  have hpos : 0 < buf.length := List.length_pos.mpr h
  simp [List.length_dropLast]
  omega

/-- C4: the documented three-record example merges to exactly two entries,
and in general a record with empty `definition` hitting a non-empty buffer
creates no new entry — it newline-appends its example to the immediately
preceding entry. -/
theorem processRawData_continuation_merge :
    (processRawData
        [⟨"test", "example 1"⟩, ⟨"", "example 2"⟩, ⟨"test2", "example 3"⟩] [] =
      [⟨"test", "example 1\nexample 2"⟩, ⟨"test2", "example 3"⟩]) ∧
    (∀ (buf : List VocabEntry) (item : VocabEntry) (h : buf ≠ []),
      item.definition = "" →
      processRawStep buf item =
        buf.dropLast ++
          [⟨(buf.getLast h).definition,
            (buf.getLast h).«example» ++ "\n" ++ item.«example»⟩] ∧
      (processRawStep buf item).length = buf.length) :=
  ⟨by decide,
    fun buf item h hdef =>
      ⟨processRawStep_merge buf item h hdef, processRawStep_merge_length buf item h hdef⟩⟩

/-- C4 witness: the merge rule applied to a singleton buffer. -/
theorem processRawData_continuation_merge_inst :
    processRawStep [⟨"a", "x"⟩] ⟨"", "y"⟩ =
      ([⟨"a", "x"⟩] : List VocabEntry).dropLast ++
        [⟨(([⟨"a", "x"⟩] : List VocabEntry).getLast (List.cons_ne_nil _ _)).definition,
          (([⟨"a", "x"⟩] : List VocabEntry).getLast (List.cons_ne_nil _ _)).«example» ++
            "\n" ++ "y"⟩] ∧
    (processRawStep [⟨"a", "x"⟩] ⟨"", "y"⟩).length = 1 :=
  processRawData_continuation_merge.2 [⟨"a", "x"⟩] ⟨"", "y"⟩ (List.cons_ne_nil _ _) rfl

/-! ## Claim C10 -/

/-- C10: a record with empty `definition` arriving while the buffer is
still empty is not merged, dropped or rejected — it is pushed as a new
standalone entry whose definition is the empty string, and processing
continues with the rest of the input. -/
theorem processRawData_empty_definition_empty_buffer_pushes :
    ∀ (ex : String) (rest : List VocabEntry),
      processRawData (⟨"", ex⟩ :: rest) [] = processRawData rest [⟨"", ex⟩] ∧
      processRawStep [] ⟨"", ex⟩ = [⟨"", ex⟩] := by
  intro ex rest
  have hstep : processRawStep [] (⟨"", ex⟩ : VocabEntry) = [⟨"", ex⟩] := by
    unfold processRawStep
    rw [dif_neg]
    · rfl
    · intro hc
      exact hc.2 rfl
  refine ⟨?_, hstep⟩
  unfold processRawData
  rw [List.foldl_cons, hstep]

/-! ## Claim C6 -/

/-- Writing fixed per-page artifacts into the keyed store, in any
completion order, produces the store that maps exactly the written pages to
their artifacts. -/
theorem persist_foldl_eq (artifact : Nat → List VocabEntry × List VocabEntry) :
    ∀ (o : List Nat) (store : Nat → Option (List VocabEntry × List VocabEntry)) (q : Nat),
      o.foldl (persistJobStep artifact) store q =
        if q ∈ o then some (artifact q) else store q := by
  intro o
  induction o with
  | nil => intro store q; simp
  | cons p rest ih =>
      intro store q
      rw [List.foldl_cons, ih]
      by_cases hq : q ∈ rest
      · rw [if_pos hq, if_pos (List.mem_cons.mpr (Or.inr hq))]
      · rw [if_neg hq]
        unfold persistJobStep
        by_cases hqp : q = p
        · subst hqp
          rw [if_pos rfl, if_pos (List.mem_cons_self q rest)]
        · rw [if_neg hqp, if_neg (by
            intro hc
            rcases List.mem_cons.mp hc with hc | hc
            · exact hqp hc
            · exact hq hc)]

/-- The persisted store after phase 1 depends only on which pages ran. -/
theorem runJobsPersist_eq (artifact : Nat → List VocabEntry × List VocabEntry)
    (o : List Nat) :
    runJobsPersist artifact o = fun q => if q ∈ o then some (artifact q) else none := by
  funext q
  exact persist_foldl_eq artifact o (fun _ => none) q

/-- C6 counterexample: the `processAll` of `src/src/index.js:219-245`
aggregates inside the concurrent job callback, so with fixed persisted
artifacts for pages 16 and 17, the two completion orders `[16, 17]` and
`[17, 16]` produce different final sequences — the aggregation reflects
completion order, not ascending page order. -/
theorem completion_order_changes_aggregate :
    processAllCompletionOrderAggregate
        (fun p => [⟨if p = 16 then "a" else "b", ""⟩]) (fun _ => []) [16, 17] ≠
      processAllCompletionOrderAggregate
        (fun p => [⟨if p = 16 then "a" else "b", ""⟩]) (fun _ => []) [17, 16] := by
  decide

/-- C6 (amended): order invariance holds for the two-phase variant
(`src/unnamed/part_012:76-100`), where the concurrent jobs only persist
their per-page artifacts and a later strictly sequential pass walks pages
in ascending order, left column before right: permuting the
submission/completion order of the page jobs leaves the final aggregated
sequence unchanged.  The `processAll` at `src/src/index.js:219-245`
instead appends in completion order (see the counterexample). -/
theorem sequential_aggregation_order_invariant :
    ∀ (artifact : Nat → List VocabEntry × List VocabEntry)
      (pageStart pageEnd : Nat) (o o2 : List Nat),
      o.Perm o2 →
      processAllTwoPhase artifact pageStart pageEnd o =
        processAllTwoPhase artifact pageStart pageEnd o2 := by
  intro artifact ps pe o o2 hperm
  unfold processAllTwoPhase
  refine List.foldl_ext _ _ [] ?_
  intro buf p _
  simp only [runJobsPersist_eq]
  by_cases h : p ∈ o
  · rw [if_pos h, if_pos (hperm.mem_iff.mp h)]
  · rw [if_neg h, if_neg fun hc => h (hperm.mem_iff.mpr hc)]

/-- C6 witness: permuting two page jobs leaves the two-phase result
unchanged. -/
theorem sequential_aggregation_order_invariant_inst :
    ([16, 17] : List Nat).Perm [17, 16] ∧
    processAllTwoPhase (fun p => ([⟨if p = 16 then "a" else "b", ""⟩], [])) 16 17 [16, 17] =
      processAllTwoPhase (fun p => ([⟨if p = 16 then "a" else "b", ""⟩], [])) 16 17 [17, 16] :=
  ⟨by decide,
    sequential_aggregation_order_invariant
      (fun p => ([⟨if p = 16 then "a" else "b", ""⟩], [])) 16 17 [16, 17] [17, 16] (by decide)⟩

/-! ## Claim C7 -/

/-- Generalised run of the wrapped page jobs: failures accumulate in run
order and every successful job's artifact is merged, wherever the failures
sit. -/
theorem runPageJobs_go (outcome : Nat → Except String (List VocabEntry × List VocabEntry)) :
    ∀ (order : List Nat) (fails : List (Nat × String)) (buf : List VocabEntry),
      order.foldl (runPageJobStep outcome) (fails, buf) =
        (fails ++ failuresOf outcome order,
          (successesOf outcome order).foldl mergePageArtifact buf) := by
  intro order
  induction order with
  | nil => intro fails buf; simp [failuresOf, successesOf]
  | cons p rest ih =>
      intro fails buf
      rw [List.foldl_cons]
      cases h : outcome p with
      | error e =>
          have hstep : runPageJobStep outcome (fails, buf) p = (fails ++ [(p, e)], buf) := by
            unfold runPageJobStep
            rw [h]
          rw [hstep, ih]
          simp [failuresOf, successesOf, List.filterMap_cons, h, List.append_assoc]
      | ok d =>
          have hstep : runPageJobStep outcome (fails, buf) p =
              (fails, mergePageArtifact buf d) := by
            unfold runPageJobStep
            rw [h]
          rw [hstep, ih]
          simp [failuresOf, successesOf, List.filterMap_cons, h]

/-- Every submitted job is either a recorded failure or a success. -/
theorem failures_successes_length
    (outcome : Nat → Except String (List VocabEntry × List VocabEntry)) :
    ∀ (order : List Nat),
      (failuresOf outcome order).length + (successesOf outcome order).length =
        order.length := by
  intro order
  induction order with
  | nil => rfl
  | cons p rest ih =>
      unfold failuresOf successesOf at ih ⊢
      rw [List.filterMap_cons, List.filterMap_cons]
      cases h : outcome p <;> simp <;> omega

/-- C7: for every assignment of outcomes to the M submitted page jobs and
every completion order, the run records exactly the failing jobs (with
their pages and messages, N of them) and merges exactly the successful
jobs' artifacts (M−N of them) into the buffer — an exception in one job is
absorbed at its own boundary and neither cancels the run nor any sibling
job. -/
theorem job_failures_isolated :
    ∀ (outcome : Nat → Except String (List VocabEntry × List VocabEntry))
      (completionOrder : List Nat),
      runPageJobs outcome completionOrder =
        (failuresOf outcome completionOrder,
          (successesOf outcome completionOrder).foldl mergePageArtifact []) ∧
      (failuresOf outcome completionOrder).length +
          (successesOf outcome completionOrder).length = completionOrder.length := by
  intro outcome order
  refine ⟨?_, failures_successes_length outcome order⟩
  unfold runPageJobs
  rw [runPageJobs_go]
  simp

/-! ## Claim C8 -/

/-- C8: when the data artifact for a (page, column) key is already
persisted, `processColumn` returns the persisted records together with the
persisted ranges (empty if the ranges file is missing), runs neither break
detection nor text extraction, and leaves the store — hence the persisted
bytes — untouched.  The right-hand side does not mention `detect` or
`extract`: a second run over a populated cache cannot recompute
anything. -/
theorem processColumn_cache_hit_idempotent :
    ∀ (α : Type) (store : ColumnStore α) (detect : Unit → List (Nat × Nat))
      (extract : List (Nat × Nat) → List α) (d : List α),
      store.dataFile = some d →
      processColumn store detect extract =
        { store := store
          data := d
          ranges := store.rangesFile.getD []
          ranDetection := false
          ranExtraction := false } := by
  intro α store detect extract d h
  obtain ⟨df, rf⟩ := store
  dsimp only at h
  subst h
  rfl

/-- C8 witness: a concrete populated cache entry is returned unchanged. -/
theorem processColumn_cache_hit_idempotent_inst :
    processColumn (⟨some [1, 2], some [(0, 5)]⟩ : ColumnStore Nat)
        (fun _ => [(7, 8)]) (fun _ => [9]) =
      { store := ⟨some [1, 2], some [(0, 5)]⟩
        data := [1, 2]
        ranges := [(0, 5)]
        ranDetection := false
        ranExtraction := false } :=
  processColumn_cache_hit_idempotent Nat ⟨some [1, 2], some [(0, 5)]⟩
    (fun _ => [(7, 8)]) (fun _ => [9]) [1, 2] rfl

/-! ## Claim C9 -/

/-- C9 (the code contradicts the claim and its own doc comment): on a
worker reply the `exec` message handler first calls `abort.clear()`, which
does not exist on the platform `AbortSignal`, so the handler throws instead
of resolving the promise with the reviver-mapped response; and on the 30 s
timeout the chosen worker is terminated and the promise rejected, but no
replacement is spawned — a size-1 pool is left with zero live workers. -/
theorem worker_pool_message_throws_and_timeout_no_replacement :
    (execHandle (fun v : Nat => v) ⟨[true], 0⟩ (WorkerEvent.message 42)).2 =
      ExecOutcome.handlerThrew "abort.clear is not a function" ∧
    execHandle (fun v : Nat => v) ⟨[true], 0⟩ WorkerEvent.timedOut =
      (⟨[false], 0⟩, ExecOutcome.rejected "Worker timed out after 30 s") ∧
    (execHandle (fun v : Nat => v) ⟨[true], 0⟩
        WorkerEvent.timedOut).1.workersAlive.count true = 0 := by
  refine ⟨?_, ?_, ?_⟩ <;> decide

end GoetheB1
